import Mathlib

/-!
Shallow embedding of `src/getS3StorageInfoOne01.py` (the final variant of the
aws-s3-inventory repository): the fact registry, the column registry, the
dependency planner (`required_facts`), and the row engine (`ensure_facts`,
the per-bucket loop of `main`).

Modelling conventions:
* AWS calls are abstracted by an `AwsEnv` record of fixed responses; a
  `ClientError` exception carries its error code.
* Python floats (CloudWatch averages) are modelled by `Rat`; Python `int()`
  is truncation toward zero of the exact value.
* Python dicts are association lists with insertion-order semantics
  (`dictInsert` overwrites in place or appends; `dictGet` looks up).
* `ensure_facts` mutates `ctx.facts` and may raise; this is modelled by
  returning the final context together with the list of collector keys that
  were actually invoked (in order) and an optional error that aborted the
  loop: the partial mutations before the raise are kept, as in Python.
-/

namespace S3Inv

/-- A botocore `ClientError`, identified by its error code. -/
structure ClientError where
  code : String
deriving DecidableEq

/-- One CloudWatch datapoint: a timestamp and the `Average` statistic. -/
structure Datapoint where
  timestamp : Nat
  average : Rat
deriving DecidableEq

/-- The shapes of values stored in `ctx.facts`: the account id string, the
tags dict (string to string), or the sizes-by-storage-type dict
(string to float). -/
inductive FactValue where
  | str (s : String)
  | strMap (m : List (String × String))
  | numMap (m : List (String × Rat))
deriving DecidableEq

/-- A value produced by a column provider (a CSV cell): a string or an int. -/
inductive OutputValue where
  | str (s : String)
  | int (n : Int)
deriving DecidableEq

/-- Model of `BucketBase`: the stable base of a row context. -/
structure BucketBase where
  bucket_name : String
  region : String
deriving DecidableEq

/-- Model of `RowContext`: the per-bucket context.  The `session`/`s3` client fields of
the Python dataclass are modelled by the `AwsEnv` argument passed alongside,
so only the stable base and the lazily populated facts remain. -/
structure RowContext where
  base : BucketBase
  facts : List (String × FactValue)
deriving DecidableEq

/-- Fixed responses of the AWS collaborators reached through the boto3
session and clients. -/
structure AwsEnv where
  stsAccount : Except ClientError String
  tagging : String → Except ClientError (List (String × String))
  metrics : String → String → Except ClientError (List Datapoint)
  location : String → Except ClientError (Option String)
  listBuckets : Except ClientError (List String)

/-- Python dict lookup `m.get(k)`. -/
def dictGet {α : Type} (m : List (String × α)) (k : String) : Option α :=
  match m with
  | [] => none
  | (k', v) :: rest => if k' = k then some v else dictGet rest k

/-- Python dict update `m[k] = v`: overwrite in place, else append. -/
def dictInsert {α : Type} (m : List (String × α)) (k : String) (v : α) :
    List (String × α) :=
  match m with
  | [] => [(k, v)]
  | (k', v') :: rest =>
    if k' = k then (k', v) :: rest else (k', v') :: dictInsert rest k v

/-- Model of `STORAGE_TYPES` from the config section. -/
def STORAGE_TYPES : List String :=
  ["StandardStorage", "StandardIAStorage", "OneZoneIAStorage",
   "ReducedRedundancyStorage", "GlacierStorage",
   "GlacierInstantRetrievalStorage", "GlacierDeepArchiveStorage",
   "IntelligentTieringFAStorage", "IntelligentTieringIAStorage",
   "IntelligentTieringAAStorage"]

/-- Model of `get_bucket_region`: `us-east-1` when `LocationConstraint` is `None`,
the constraint unchanged otherwise, and `None` on a `ClientError`. -/
def get_bucket_region (env : AwsEnv) (bucket_name : String) : Option String :=
  match env.location bucket_name with
  | .ok loc => some (loc.getD "us-east-1")
  | .error _ => none

/-- A fact collector: `(RowContext) -> Any`, which may raise a
`ClientError` coming from its AWS call. -/
def Provider : Type :=
  AwsEnv → RowContext → Except ClientError FactValue

/-- Model of `fact_account_id`: `sts.get_caller_identity()["Account"]`; an error of
the STS call is not caught and propagates. -/
def fact_account_id : Provider := fun env _ctx =>
  match env.stsAccount with
  | .ok acct => .ok (.str acct)
  | .error e => .error e

/-- Model of `fact_tags`: builds `{t["Key"]: t["Value"]}` from the `TagSet`; every
`ClientError` is caught inside the collector (`NoSuchTagSet` silently, any
other with a warning) and yields the empty dict. -/
def fact_tags : Provider := fun env ctx =>
  match env.tagging ctx.base.bucket_name with
  | .ok tagset => .ok (.strMap (tagset.foldl (fun m t => dictInsert m t.1 t.2) []))
  | .error e => if e.code = "NoSuchTagSet" then .ok (.strMap []) else .ok (.strMap [])

/-- Python `max(dps, key=lambda d: d["Timestamp"])` (first maximum wins). -/
def maxByTimestamp (dps : List Datapoint) : Option Datapoint :=
  dps.foldl
    (fun acc d =>
      match acc with
      | none => some d
      | some m => if d.timestamp > m.timestamp then some d else some m)
    none

/-- Model of `fact_sizes_by_type`: for each storage type, query CloudWatch; a
`ClientError` for one type is caught and skipped, an empty datapoint list is
skipped, otherwise the latest datapoint's average is recorded. -/
def fact_sizes_by_type : Provider := fun env ctx =>
  .ok (.numMap (STORAGE_TYPES.foldl
    (fun sizes stype =>
      match env.metrics ctx.base.bucket_name stype with
      | .error _ => sizes
      | .ok dps =>
        match maxByTimestamp dps with
        | none => sizes
        | some latest => dictInsert sizes stype latest.average)
    []))

/-- Model of `FACT_COLLECTORS`: the literal dict mapping fact keys to collectors;
`.get` semantics (absent key gives `none`). -/
def FACT_COLLECTORS : String → Option Provider := fun k =>
  if k = "account_id" then some fact_account_id
  else if k = "tags" then some fact_tags
  else if k = "sizes_by_type" then some fact_sizes_by_type
  else none

/-- The exceptions `ensure_facts` can raise: the explicit
`KeyError("No fact collector registered for ...")`, or a `ClientError`
propagating out of a collector. -/
inductive EnsureError where
  | unknownKey (k : String)
  | providerError (k : String) (e : ClientError)
deriving DecidableEq

/-- Outcome of a call to `ensure_facts`: the context after the call (with
all mutations made before any raise), the keys whose collectors were
actually invoked, in order, and the error that aborted the loop, if any. -/
structure EnsureResult where
  ctx : RowContext
  invoked : List String
  err : Option EnsureError
deriving DecidableEq

/-- Model of `ensure_facts(ctx, needed)`: populate `ctx.facts` for the requested fact
keys (only once).  `needed` is a Python set; the list argument is its
iteration order.  A key already present is skipped; an unregistered key
raises `KeyError`; a collector's `ClientError` propagates, aborting the
loop with the earlier insertions kept. -/
def ensure_facts (collectors : String → Option Provider) (env : AwsEnv)
    (ctx : RowContext) (needed : List String) : EnsureResult :=
  match needed with
  | [] => ⟨ctx, [], none⟩
  | key :: rest =>
    match dictGet ctx.facts key with
    | some _ => ensure_facts collectors env ctx rest
    | none =>
      match collectors key with
      | none => ⟨ctx, [], some (.unknownKey key)⟩
      | some collector =>
        match collector env ctx with
        | .error e => ⟨ctx, [key], some (.providerError key e)⟩
        | .ok v =>
          let r := ensure_facts collectors env
            ⟨ctx.base, dictInsert ctx.facts key v⟩ rest
          ⟨r.ctx, key :: r.invoked, r.err⟩

/-- A sequence of `ensure_facts` calls on one evolving context (the caller
catching any raise and carrying on): final context, all invoked keys in
order, and each call's optional error. -/
def ensureSeq (collectors : String → Option Provider) (env : AwsEnv) :
    RowContext → List (List String) →
    RowContext × List String × List (Option EnsureError)
  | ctx, [] => (ctx, [], [])
  | ctx, needed :: rest =>
    let r := ensure_facts collectors env ctx needed
    let (ctx', inv, errs) := ensureSeq collectors env r.ctx rest
    (ctx', r.invoked ++ inv, r.err :: errs)

/-- Python `int(q)` on an exact rational: truncation toward zero. -/
def truncRat (q : Rat) : Int :=
  q.num.tdiv (q.den : Int)

/-- Python `sum(m.values())` for a sizes dict. -/
def ratSum (m : List (String × Rat)) : Rat :=
  (m.map Prod.snd).foldl (· + ·) 0

/-- Read a cached `account_id` value as the string it always is (the only
writer, `ensure_facts` with `FACT_COLLECTORS`, stores `.str` under this
key); the other variants do not occur there. -/
def strOf : FactValue → String
  | .str s => s
  | _ => ""

/-- Read a cached tags value as the string map it always is. -/
def strMapOf : FactValue → List (String × String)
  | .strMap m => m
  | _ => []

/-- Read a cached sizes value as the numeric map it always is. -/
def numMapOf : FactValue → List (String × Rat)
  | .numMap m => m
  | _ => []

/-- Model of `col_bucket_name`. -/
def col_bucket_name (ctx : RowContext) : OutputValue :=
  .str ctx.base.bucket_name

/-- Model of `col_region`. -/
def col_region (ctx : RowContext) : OutputValue :=
  .str ctx.base.region

/-- Model of `col_account_id`: `ctx.facts.get("account_id", "")`. -/
def col_account_id (ctx : RowContext) : OutputValue :=
  .str (strOf ((dictGet ctx.facts "account_id").getD (.str "")))

/-- Model of `col_total_bytes`: `int(sum(ctx.facts.get("sizes_by_type", {}).values()))`. -/
def col_total_bytes (ctx : RowContext) : OutputValue :=
  .int (truncRat (ratSum (numMapOf ((dictGet ctx.facts "sizes_by_type").getD (.numMap [])))))

/-- Python tuple comparison for `sorted(tags.items())` (keys compared first,
values break ties). -/
def pairLe (p q : String × String) : Bool :=
  match compare p.1 q.1 with
  | .lt => true
  | .gt => false
  | .eq => compare p.2 q.2 != .gt

/-- Stable insertion into a sorted list of tag pairs. -/
def insertPair (p : String × String) :
    List (String × String) → List (String × String)
  | [] => [p]
  | q :: rest => if pairLe p q then p :: q :: rest else q :: insertPair p rest

/-- Model of `sorted(tags.items())`. -/
def sortPairs (l : List (String × String)) : List (String × String) :=
  l.foldr insertPair []

/-- Model of `col_tags_kv`: empty string for an empty dict, otherwise the sorted
`k=v` pairs joined by `;`. -/
def col_tags_kv (ctx : RowContext) : OutputValue :=
  let tags := strMapOf ((dictGet ctx.facts "tags").getD (.strMap []))
  if tags.isEmpty then .str ""
  else .str (String.intercalate ";"
    ((sortPairs tags).map (fun p => p.1 ++ "=" ++ p.2)))

/-- Model of `_tag_value`: `tags.get(key, "") or ""`. -/
def tag_value (ctx : RowContext) (key : String) : String :=
  let tags := strMapOf ((dictGet ctx.facts "tags").getD (.strMap []))
  let v := (dictGet tags key).getD ""
  if v = "" then "" else v

/-- Model of `col_tag_cost_center`. -/
def col_tag_cost_center (ctx : RowContext) : OutputValue :=
  .str (tag_value ctx "cost_center")

/-- Model of `col_tag_environment`. -/
def col_tag_environment (ctx : RowContext) : OutputValue :=
  .str (tag_value ctx "environment")

/-- Model of `make_storage_type_provider`: `int(sizes.get(storage_type, 0))`. -/
def make_storage_type_provider (storage_type : String) :
    RowContext → OutputValue := fun ctx =>
  .int (truncRat ((dictGet (numMapOf ((dictGet ctx.facts "sizes_by_type").getD (.numMap []))) storage_type).getD 0))

/-- Model of `ColumnDef`: name, enabled flag, provider, and the set of required fact
keys (a Python set, modelled as a `Finset`). -/
structure ColumnDef where
  name : String
  enabled : Bool
  provider : RowContext → OutputValue
  requires : Finset String

/-- Model of `COLUMNS`: the registry as written in the source (the per-storage-type
columns are commented out there and so absent here). -/
def COLUMNS : List ColumnDef :=
  [⟨"bucket_name", true, col_bucket_name, ∅⟩,
   ⟨"region", true, col_region, ∅⟩,
   ⟨"account_id", false, col_account_id, {"account_id"}⟩,
   ⟨"total_bytes", true, col_total_bytes, {"sizes_by_type"}⟩,
   ⟨"tags", true, col_tags_kv, {"tags"}⟩,
   ⟨"tag_cost_center", true, col_tag_cost_center, {"tags"}⟩,
   ⟨"tag_environment", true, col_tag_environment, {"tags"}⟩]

/-- Model of `enabled_columns()`: `[c for c in cols if c.enabled]` (the source reads
the module-level `COLUMNS`; the registry is passed explicitly here). -/
def enabled_columns (cols : List ColumnDef) : List ColumnDef :=
  cols.filter (fun c => c.enabled)

/-- Model of `enabled_fieldnames(cols)`. -/
def enabled_fieldnames (cols : List ColumnDef) : List String :=
  cols.map (fun c => c.name)

/-- Model of `required_facts(cols)`: the union of the `requires` sets. -/
def required_facts (cols : List ColumnDef) : Finset String :=
  cols.foldl (fun req c => req ∪ c.requires) ∅

/-- The row-building loop of `main`: `row[c.name] = c.provider(ctx)` over
the enabled columns in order (an ordered dict keyed by the unique names). -/
def buildRow (cols : List ColumnDef) (ctx : RowContext) :
    List (String × OutputValue) :=
  cols.map (fun c => (c.name, c.provider ctx))

/-- The bucket loop of `main`: skip a bucket whose region is `None` or
falsy, otherwise build a fresh context, ensure the globally needed facts
(`order` is the iteration order of that set) and emit the row.  Returns the
emitted rows, all collector keys invoked across buckets, and the error that
aborted the loop if `ensure_facts` raised. -/
def processBuckets (cols : List ColumnDef)
    (collectors : String → Option Provider) (order : List String)
    (env : AwsEnv) :
    List String →
    List (List (String × OutputValue)) × List String × Option EnsureError
  | [] => ([], [], none)
  | b :: rest =>
    match get_bucket_region env b with
    | none => processBuckets cols collectors order env rest
    | some region =>
      if region = "" then processBuckets cols collectors order env rest
      else
        let r := ensure_facts collectors env ⟨⟨b, region⟩, []⟩ order
        match r.err with
        | some e => ([], r.invoked, some e)
        | none =>
          let rec' := processBuckets cols collectors order env rest
          (buildRow cols r.ctx :: rec'.1, r.invoked ++ rec'.2.1, rec'.2.2)

/-- The outcome of one report run: the header written to the CSV (none when
`list_buckets` failed and no file was opened), the fully written rows, the
invoked collector keys, and the uncaught error, if any. -/
structure RunResult where
  header : Option (List String)
  rows : List (List (String × OutputValue))
  invoked : List String
  err : Option EnsureError
deriving DecidableEq

/-- Model of `main`, generalized over the registry and the collector table the
source reads from module scope: compute the enabled columns, their
fieldnames and the globally required facts, list the buckets (a failure
only aborts, writing nothing), write the header, then run the bucket loop. -/
def runReport (columns : List ColumnDef)
    (collectors : String → Option Provider) (order : List String)
    (env : AwsEnv) : RunResult :=
  let cols := enabled_columns columns
  let fieldnames := enabled_fieldnames cols
  match env.listBuckets with
  | .error _ => ⟨none, [], [], none⟩
  | .ok buckets =>
    let r := processBuckets cols collectors order env buckets
    ⟨some fieldnames, r.1, r.2.1, r.2.2⟩

/-- Model of `main` itself, on the registries of the source module. -/
def mainModel (env : AwsEnv) (order : List String) : RunResult :=
  runReport COLUMNS FACT_COLLECTORS order env

/-! ### Concrete environments used to evaluate the theorems -/

/-- A healthy single-bucket account. -/
def okEnv : AwsEnv :=
  ⟨.ok "123456789012",
   fun _ => .ok [("environment", "prod"), ("cost_center", "cc1")],
   fun _ _ => .ok [],
   fun _ => .ok (some "eu-west-1"),
   .ok ["b1"]⟩

/-- An account whose STS call always fails (so `fact_account_id` raises). -/
def stsDownEnv : AwsEnv :=
  ⟨.error ⟨"AccessDenied"⟩,
   fun _ => .ok [],
   fun _ _ => .ok [],
   fun _ => .ok none,
   .ok ["b1"]⟩

/-- An account whose `get_bucket_location` call always fails. -/
def locErrEnv : AwsEnv :=
  ⟨.ok "123456789012",
   fun _ => .ok [],
   fun _ _ => .ok [],
   fun _ => .error ⟨"AccessDenied"⟩,
   .ok ["b1"]⟩

/-- An account with no buckets. -/
def noBucketEnv : AwsEnv :=
  ⟨.ok "123456789012",
   fun _ => .ok [],
   fun _ _ => .ok [],
   fun _ => .ok none,
   .ok []⟩

/-- A fresh context for bucket `b1`, as `main` builds it. -/
def ctxB1 : RowContext := ⟨⟨"b1", "eu-west-1"⟩, []⟩

/-! ### The spec's example scenario (§8): facts `size`/`owner`, columns
`name`, `total`, `owner_col` (disabled); these are concrete inputs fed to
the source's machinery, with the `total` renderer following the
`col_total_bytes` pattern on the `size` key. -/

/-- The example fact registry: `size` yields `{"A": 10, "B": 5}`, `owner`
is a provider that must never be called. -/
def exampleCollectors : String → Option Provider := fun k =>
  if k = "size" then some (fun _ _ => .ok (.numMap [("A", 10), ("B", 5)]))
  else if k = "owner" then some (fun _ _ => .ok (.str "owner-x"))
  else none

/-- The example column registry: `name` (requires none), `total`
(requires `size`), `owner_col` (requires `owner`, disabled). -/
def exampleColumns : List ColumnDef :=
  [⟨"name", true, fun ctx => .str ctx.base.bucket_name, ∅⟩,
   ⟨"total", true,
     fun ctx => .int (truncRat (ratSum (numMapOf ((dictGet ctx.facts "size").getD (.numMap []))))),
     {"size"}⟩,
   ⟨"owner_col", false,
     fun ctx => .str (strOf ((dictGet ctx.facts "owner").getD (.str ""))),
     {"owner"}⟩]

/-- The example resource, named `bucket-1`. -/
def exampleCtx : RowContext := ⟨⟨"bucket-1", "us-east-1"⟩, []⟩

/-- A registry whose single enabled column requires a fact key that
`FACT_COLLECTORS` does not know. -/
def bogusColumns : List ColumnDef :=
  [⟨"x", true, fun _ => .str "", {"bogus"}⟩]

/-- An environment in which every AWS collaborator call fails. -/
def allDownEnv : AwsEnv :=
  ⟨.error ⟨"AccessDenied"⟩,
   fun _ => .error ⟨"AccessDenied"⟩,
   fun _ _ => .error ⟨"Throttling"⟩,
   fun _ => .error ⟨"AccessDenied"⟩,
   .error ⟨"AccessDenied"⟩⟩

/-! ### Lemmas about the dict model -/

theorem dictGet_insert_self {α : Type} (m : List (String × α)) (k : String)
    (v : α) : dictGet (dictInsert m k v) k = some v := by
  induction m with
  | nil => simp [dictInsert, dictGet]
  | cons p rest ih =>
    obtain ⟨k', v'⟩ := p
    by_cases h : k' = k
    · subst h
      simp [dictInsert, dictGet]
    · simp [dictInsert, dictGet, h, ih]

theorem dictGet_insert_ne {α : Type} (m : List (String × α)) (k k' : String)
    (v : α) (h : k' ≠ k) :
    dictGet (dictInsert m k v) k' = dictGet m k' := by
  have h' : ¬(k = k') := fun hh => h hh.symm
  induction m with
  | nil => simp [dictInsert, dictGet, h']
  | cons p rest ih =>
    obtain ⟨k₀, v₀⟩ := p
    by_cases h0 : k₀ = k
    · subst h0
      simp [dictInsert, dictGet, h']
    · simp only [dictInsert, if_neg h0]
      by_cases h1 : k₀ = k'
      · simp [dictGet, h1]
      · simp [dictGet, h1, ih]

/-! ### Step equations for `ensure_facts` -/

theorem ensure_nil (collectors : String → Option Provider) (env : AwsEnv)
    (ctx : RowContext) : ensure_facts collectors env ctx [] = ⟨ctx, [], none⟩ :=
  rfl

theorem ensure_cons_cached (collectors : String → Option Provider)
    (env : AwsEnv) (ctx : RowContext) (key : String) (rest : List String)
    (w : FactValue) (hc : dictGet ctx.facts key = some w) :
    ensure_facts collectors env ctx (key :: rest) =
      ensure_facts collectors env ctx rest := by
  simp only [ensure_facts, hc]

theorem ensure_cons_unknown (collectors : String → Option Provider)
    (env : AwsEnv) (ctx : RowContext) (key : String) (rest : List String)
    (hc : dictGet ctx.facts key = none) (hcol : collectors key = none) :
    ensure_facts collectors env ctx (key :: rest) =
      ⟨ctx, [], some (.unknownKey key)⟩ := by
  simp only [ensure_facts, hc, hcol]

theorem ensure_cons_fail (collectors : String → Option Provider)
    (env : AwsEnv) (ctx : RowContext) (key : String) (rest : List String)
    (p : Provider) (e : ClientError) (hc : dictGet ctx.facts key = none)
    (hcol : collectors key = some p) (hv : p env ctx = .error e) :
    ensure_facts collectors env ctx (key :: rest) =
      ⟨ctx, [key], some (.providerError key e)⟩ := by
  simp only [ensure_facts, hc, hcol, hv]

theorem ensure_cons_ok (collectors : String → Option Provider)
    (env : AwsEnv) (ctx : RowContext) (key : String) (rest : List String)
    (p : Provider) (v : FactValue) (hc : dictGet ctx.facts key = none)
    (hcol : collectors key = some p) (hv : p env ctx = .ok v) :
    ensure_facts collectors env ctx (key :: rest) =
      ⟨(ensure_facts collectors env ⟨ctx.base, dictInsert ctx.facts key v⟩ rest).ctx,
       key :: (ensure_facts collectors env ⟨ctx.base, dictInsert ctx.facts key v⟩ rest).invoked,
       (ensure_facts collectors env ⟨ctx.base, dictInsert ctx.facts key v⟩ rest).err⟩ := by
  simp only [ensure_facts, hc, hcol, hv]

/-! ### Structural lemmas about `ensure_facts` -/

theorem ensure_base (collectors : String → Option Provider) (env : AwsEnv)
    (ctx : RowContext) (needed : List String) :
    (ensure_facts collectors env ctx needed).ctx.base = ctx.base := by
  induction needed generalizing ctx with
  | nil => rfl
  | cons key rest ih =>
    cases hc : dictGet ctx.facts key with
    | some w => rw [ensure_cons_cached collectors env ctx key rest w hc]; exact ih ctx
    | none =>
      cases hcol : collectors key with
      | none => rw [ensure_cons_unknown collectors env ctx key rest hc hcol]
      | some p =>
        cases hv : p env ctx with
        | error e => rw [ensure_cons_fail collectors env ctx key rest p e hc hcol hv]
        | ok v =>
          rw [ensure_cons_ok collectors env ctx key rest p v hc hcol hv]
          exact ih ⟨ctx.base, dictInsert ctx.facts key v⟩

theorem ensure_mono (collectors : String → Option Provider) (env : AwsEnv)
    (ctx : RowContext) (needed : List String) (k : String) (v : FactValue)
    (h : dictGet ctx.facts k = some v) :
    dictGet (ensure_facts collectors env ctx needed).ctx.facts k = some v := by
  induction needed generalizing ctx with
  | nil => exact h
  | cons key rest ih =>
    cases hc : dictGet ctx.facts key with
    | some w => rw [ensure_cons_cached collectors env ctx key rest w hc]; exact ih ctx h
    | none =>
      cases hcol : collectors key with
      | none => rw [ensure_cons_unknown collectors env ctx key rest hc hcol]; exact h
      | some p =>
        cases hv : p env ctx with
        | error e =>
          rw [ensure_cons_fail collectors env ctx key rest p e hc hcol hv]
          exact h
        | ok v' =>
          rw [ensure_cons_ok collectors env ctx key rest p v' hc hcol hv]
          refine ih ⟨ctx.base, dictInsert ctx.facts key v'⟩ ?_
          have hne : k ≠ key := by
            intro he
            rw [he, hc] at h
            exact Option.noConfusion h
          rw [dictGet_insert_ne ctx.facts key k v' hne]
          exact h

theorem ensure_invoked_uncached (collectors : String → Option Provider)
    (env : AwsEnv) (ctx : RowContext) (needed : List String) (k : String)
    (hk : k ∈ (ensure_facts collectors env ctx needed).invoked) :
    dictGet ctx.facts k = none := by
  induction needed generalizing ctx with
  | nil => simp [ensure_nil] at hk
  | cons key rest ih =>
    cases hc : dictGet ctx.facts key with
    | some w =>
      rw [ensure_cons_cached collectors env ctx key rest w hc] at hk
      exact ih ctx hk
    | none =>
      cases hcol : collectors key with
      | none =>
        rw [ensure_cons_unknown collectors env ctx key rest hc hcol] at hk
        simp at hk
      | some p =>
        cases hv : p env ctx with
        | error e =>
          rw [ensure_cons_fail collectors env ctx key rest p e hc hcol hv] at hk
          simp at hk
          rw [hk]
          exact hc
        | ok v =>
          rw [ensure_cons_ok collectors env ctx key rest p v hc hcol hv] at hk
          simp at hk
          rcases hk with hk | hk
          · rw [hk]; exact hc
          · have := ih ⟨ctx.base, dictInsert ctx.facts key v⟩ hk
            by_cases hne : k = key
            · rw [hne]; exact hc
            · rwa [dictGet_insert_ne ctx.facts key k v hne] at this

theorem ensure_invoked_subset (collectors : String → Option Provider)
    (env : AwsEnv) (ctx : RowContext) (needed : List String) (k : String)
    (hk : k ∈ (ensure_facts collectors env ctx needed).invoked) :
    k ∈ needed := by
  induction needed generalizing ctx with
  | nil => simp [ensure_nil] at hk
  | cons key rest ih =>
    cases hc : dictGet ctx.facts key with
    | some w =>
      rw [ensure_cons_cached collectors env ctx key rest w hc] at hk
      exact List.mem_cons_of_mem key (ih ctx hk)
    | none =>
      cases hcol : collectors key with
      | none =>
        rw [ensure_cons_unknown collectors env ctx key rest hc hcol] at hk
        simp at hk
      | some p =>
        cases hv : p env ctx with
        | error e =>
          rw [ensure_cons_fail collectors env ctx key rest p e hc hcol hv] at hk
          simp at hk
          simp [hk]
        | ok v =>
          rw [ensure_cons_ok collectors env ctx key rest p v hc hcol hv] at hk
          simp at hk
          rcases hk with hk | hk
          · simp [hk]
          · exact List.mem_cons_of_mem key
              (ih ⟨ctx.base, dictInsert ctx.facts key v⟩ hk)

theorem ensure_invoked_nodup (collectors : String → Option Provider)
    (env : AwsEnv) (ctx : RowContext) (needed : List String) :
    (ensure_facts collectors env ctx needed).invoked.Nodup := by
  induction needed generalizing ctx with
  | nil => simp [ensure_nil]
  | cons key rest ih =>
    cases hc : dictGet ctx.facts key with
    | some w =>
      rw [ensure_cons_cached collectors env ctx key rest w hc]
      exact ih ctx
    | none =>
      cases hcol : collectors key with
      | none =>
        rw [ensure_cons_unknown collectors env ctx key rest hc hcol]
        simp
      | some p =>
        cases hv : p env ctx with
        | error e =>
          rw [ensure_cons_fail collectors env ctx key rest p e hc hcol hv]
          simp
        | ok v =>
          rw [ensure_cons_ok collectors env ctx key rest p v hc hcol hv]
          simp only [List.nodup_cons]
          refine ⟨?_, ih ⟨ctx.base, dictInsert ctx.facts key v⟩⟩
          intro hmem
          have := ensure_invoked_uncached collectors env
            ⟨ctx.base, dictInsert ctx.facts key v⟩ rest key hmem
          rw [dictGet_insert_self ctx.facts key v] at this
          exact Option.noConfusion this

theorem ensure_ok_invoked_cached (collectors : String → Option Provider)
    (env : AwsEnv) (ctx : RowContext) (needed : List String)
    (hok : (ensure_facts collectors env ctx needed).err = none) (k : String)
    (hk : k ∈ (ensure_facts collectors env ctx needed).invoked) :
    ∃ v, dictGet (ensure_facts collectors env ctx needed).ctx.facts k = some v := by
  induction needed generalizing ctx with
  | nil => simp [ensure_nil] at hk
  | cons key rest ih =>
    cases hc : dictGet ctx.facts key with
    | some w =>
      rw [ensure_cons_cached collectors env ctx key rest w hc] at hok hk ⊢
      exact ih ctx hok hk
    | none =>
      cases hcol : collectors key with
      | none =>
        rw [ensure_cons_unknown collectors env ctx key rest hc hcol] at hok
        exact Option.noConfusion hok
      | some p =>
        cases hv : p env ctx with
        | error e =>
          rw [ensure_cons_fail collectors env ctx key rest p e hc hcol hv] at hok
          exact Option.noConfusion hok
        | ok v =>
          rw [ensure_cons_ok collectors env ctx key rest p v hc hcol hv] at hok hk ⊢
          simp only [List.mem_cons] at hk
          rcases hk with hk | hk
          · subst hk
            exact ⟨v, ensure_mono collectors env _ rest k v
              (dictGet_insert_self ctx.facts k v)⟩
          · exact ih ⟨ctx.base, dictInsert ctx.facts key v⟩ hok hk

/-! ### Context independence: the registered collectors read only the
stable base of the context (and the environment), never the facts filled
in so far — the spec's flat, one-level dependency model. -/

/-- All collectors of a table give the same answer on contexts with the
same base. -/
def CtxIndep (collectors : String → Option Provider) : Prop :=
  ∀ k p, collectors k = some p →
    ∀ env c c', c.base = c'.base → p env c = p env c'

theorem fact_collectors_ctxIndep : CtxIndep FACT_COLLECTORS := by
  intro k p hp env c c' hb
  unfold FACT_COLLECTORS at hp
  by_cases h1 : k = "account_id"
  · rw [if_pos h1] at hp
    cases hp
    rfl
  · rw [if_neg h1] at hp
    by_cases h2 : k = "tags"
    · rw [if_pos h2] at hp
      cases hp
      show fact_tags env c = fact_tags env c'
      unfold fact_tags
      rw [hb]
    · rw [if_neg h2] at hp
      by_cases h3 : k = "sizes_by_type"
      · rw [if_pos h3] at hp
        cases hp
        show fact_sizes_by_type env c = fact_sizes_by_type env c'
        unfold fact_sizes_by_type
        rw [hb]
      · rw [if_neg h3] at hp
        exact Option.noConfusion hp

theorem example_collectors_ctxIndep : CtxIndep exampleCollectors := by
  intro k p hp env c c' hb
  unfold exampleCollectors at hp
  by_cases h1 : k = "size"
  · rw [if_pos h1] at hp
    cases hp
    rfl
  · rw [if_neg h1] at hp
    by_cases h2 : k = "owner"
    · rw [if_pos h2] at hp
      cases hp
      rfl
    · rw [if_neg h2] at hp
      exact Option.noConfusion hp

/-- The value a key's collector would produce for a given base (`none`
when the key is unregistered or its collector raises). -/
def factOf (collectors : String → Option Provider) (env : AwsEnv)
    (base : BucketBase) (k : String) : Option FactValue :=
  match collectors k with
  | none => none
  | some p =>
    match p env ⟨base, []⟩ with
    | .ok v => some v
    | .error _ => none

/-- Characterization of a successful `ensure_facts` run over
context-independent collectors: a key cached before keeps its value, and a
key not cached before ends up with its collector's value exactly when it
was requested. -/
theorem ensure_ok_char (collectors : String → Option Provider)
    (env : AwsEnv) (ctx : RowContext) (needed : List String)
    (hCI : CtxIndep collectors)
    (hok : (ensure_facts collectors env ctx needed).err = none) (k : String)
    (hu : dictGet ctx.facts k = none) :
    dictGet (ensure_facts collectors env ctx needed).ctx.facts k =
      if k ∈ needed then factOf collectors env ctx.base k else none := by
  induction needed generalizing ctx with
  | nil =>
    simp only [ensure_nil, List.not_mem_nil, if_false]
    exact hu
  | cons key rest ih =>
    cases hc : dictGet ctx.facts key with
    | some w =>
      rw [ensure_cons_cached collectors env ctx key rest w hc] at hok ⊢
      have hne : k ≠ key := by
        intro he
        rw [he, hc] at hu
        exact Option.noConfusion hu
      rw [ih ctx hok hu]
      simp [List.mem_cons, hne]
    | none =>
      cases hcol : collectors key with
      | none =>
        rw [ensure_cons_unknown collectors env ctx key rest hc hcol] at hok
        exact Option.noConfusion hok
      | some p =>
        cases hv : p env ctx with
        | error e =>
          rw [ensure_cons_fail collectors env ctx key rest p e hc hcol hv] at hok
          exact Option.noConfusion hok
        | ok v =>
          rw [ensure_cons_ok collectors env ctx key rest p v hc hcol hv] at hok ⊢
          by_cases hne : k = key
          · subst hne
            have hcache : dictGet (dictInsert ctx.facts k v) k = some v :=
              dictGet_insert_self ctx.facts k v
            have := ensure_mono collectors env
              ⟨ctx.base, dictInsert ctx.facts k v⟩ rest k v hcache
            rw [this]
            have hbase : (⟨ctx.base, []⟩ : RowContext).base = ctx.base := rfl
            have hval : p env ⟨ctx.base, []⟩ = p env ctx :=
              hCI k p hcol env ⟨ctx.base, []⟩ ctx hbase
            simp [List.mem_cons, factOf, hcol, hval, hv]
          · have hu' : dictGet (dictInsert ctx.facts key v) k = none := by
              rw [dictGet_insert_ne ctx.facts key k v hne]
              exact hu
            rw [ih ⟨ctx.base, dictInsert ctx.facts key v⟩ hok hu']
            simp [List.mem_cons, hne]

/-- Success condition of `ensure_facts` over context-independent
collectors: no error is raised exactly when every requested key is either
already cached or has a collector that succeeds on this base. -/
theorem ensure_ok_iff (collectors : String → Option Provider)
    (env : AwsEnv) (ctx : RowContext) (needed : List String)
    (hCI : CtxIndep collectors) :
    (ensure_facts collectors env ctx needed).err = none ↔
      ∀ k ∈ needed, (dictGet ctx.facts k).isSome ∨
        (factOf collectors env ctx.base k).isSome := by
  induction needed generalizing ctx with
  | nil => simp [ensure_nil]
  | cons key rest ih =>
    cases hc : dictGet ctx.facts key with
    | some w =>
      rw [ensure_cons_cached collectors env ctx key rest w hc, ih ctx]
      constructor
      · intro h k hk
        rcases List.mem_cons.mp hk with hk | hk
        · subst hk
          left
          rw [hc]
          rfl
        · exact h k hk
      · intro h k hk
        exact h k (List.mem_cons_of_mem key hk)
    | none =>
      cases hcol : collectors key with
      | none =>
        rw [ensure_cons_unknown collectors env ctx key rest hc hcol]
        constructor
        · intro h
          exact Option.noConfusion h
        · intro h
          have := h key (List.mem_cons_self key rest)
          rcases this with hs | hs
          · rw [hc] at hs
            simp at hs
          · simp [factOf, hcol] at hs
      | some p =>
        cases hv : p env ctx with
        | error e =>
          rw [ensure_cons_fail collectors env ctx key rest p e hc hcol hv]
          constructor
          · intro h
            exact Option.noConfusion h
          · intro h
            have := h key (List.mem_cons_self key rest)
            rcases this with hs | hs
            · rw [hc] at hs
              simp at hs
            · have hval : p env ⟨ctx.base, []⟩ = p env ctx :=
                hCI key p hcol env ⟨ctx.base, []⟩ ctx rfl
              simp [factOf, hcol, hval, hv] at hs
        | ok v =>
          rw [ensure_cons_ok collectors env ctx key rest p v hc hcol hv]
          rw [ih ⟨ctx.base, dictInsert ctx.facts key v⟩]
          have hval : p env ⟨ctx.base, []⟩ = p env ctx :=
            hCI key p hcol env ⟨ctx.base, []⟩ ctx rfl
          have hkeyok : (factOf collectors env ctx.base key).isSome := by
            simp [factOf, hcol, hval, hv]
          constructor
          · intro h k hk
            rcases List.mem_cons.mp hk with hk | hk
            · subst hk
              right
              exact hkeyok
            · rcases h k hk with hs | hs
              · by_cases hne : k = key
                · subst hne
                  right
                  exact hkeyok
                · left
                  rwa [dictGet_insert_ne ctx.facts key k v hne] at hs
              · right
                exact hs
          · intro h k hk
            by_cases hne : k = key
            · subst hne
              left
              rw [dictGet_insert_self ctx.facts k v]
              rfl
            · rcases h k (List.mem_cons_of_mem key hk) with hs | hs
              · left
                rwa [dictGet_insert_ne ctx.facts key k v hne]
              · right
                exact hs

/-- A successful first call lets `ensure_facts` over the concatenation be
split into the two successive calls. -/
theorem ensure_append (collectors : String → Option Provider) (env : AwsEnv)
    (ctx : RowContext) (K1 K2 : List String)
    (h : (ensure_facts collectors env ctx K1).err = none) :
    ensure_facts collectors env ctx (K1 ++ K2) =
      ⟨(ensure_facts collectors env (ensure_facts collectors env ctx K1).ctx K2).ctx,
       (ensure_facts collectors env ctx K1).invoked ++
         (ensure_facts collectors env (ensure_facts collectors env ctx K1).ctx K2).invoked,
       (ensure_facts collectors env (ensure_facts collectors env ctx K1).ctx K2).err⟩ := by
  induction K1 generalizing ctx with
  | nil => simp [ensure_nil]
  | cons key rest ih =>
    cases hc : dictGet ctx.facts key with
    | some w =>
      rw [ensure_cons_cached collectors env ctx key rest w hc] at h ⊢
      rw [List.cons_append,
        ensure_cons_cached collectors env ctx key (rest ++ K2) w hc]
      exact ih ctx h
    | none =>
      cases hcol : collectors key with
      | none =>
        rw [ensure_cons_unknown collectors env ctx key rest hc hcol] at h
        exact Option.noConfusion h
      | some p =>
        cases hv : p env ctx with
        | error e =>
          rw [ensure_cons_fail collectors env ctx key rest p e hc hcol hv] at h
          exact Option.noConfusion h
        | ok v =>
          rw [ensure_cons_ok collectors env ctx key rest p v hc hcol hv] at h ⊢
          rw [List.cons_append,
            ensure_cons_ok collectors env ctx key (rest ++ K2) p v hc hcol hv,
            ih ⟨ctx.base, dictInsert ctx.facts key v⟩ h]
          rfl

/-! ### Lemmas about `ensureSeq` -/

theorem ensureSeq_cons (collectors : String → Option Provider) (env : AwsEnv)
    (ctx : RowContext) (needed : List String) (rest : List (List String)) :
    ensureSeq collectors env ctx (needed :: rest) =
      ((ensureSeq collectors env (ensure_facts collectors env ctx needed).ctx rest).1,
       (ensure_facts collectors env ctx needed).invoked ++
         (ensureSeq collectors env (ensure_facts collectors env ctx needed).ctx rest).2.1,
       (ensure_facts collectors env ctx needed).err ::
         (ensureSeq collectors env (ensure_facts collectors env ctx needed).ctx rest).2.2) :=
  rfl

theorem ensureSeq_mono (collectors : String → Option Provider) (env : AwsEnv)
    (ctx : RowContext) (calls : List (List String)) (k : String)
    (v : FactValue) (h : dictGet ctx.facts k = some v) :
    dictGet (ensureSeq collectors env ctx calls).1.facts k = some v := by
  induction calls generalizing ctx with
  | nil => exact h
  | cons needed rest ih =>
    rw [ensureSeq_cons]
    exact ih (ensure_facts collectors env ctx needed).ctx
      (ensure_mono collectors env ctx needed k v h)

theorem ensureSeq_invoked_uncached (collectors : String → Option Provider)
    (env : AwsEnv) (ctx : RowContext) (calls : List (List String))
    (k : String) (hk : k ∈ (ensureSeq collectors env ctx calls).2.1) :
    dictGet ctx.facts k = none := by
  induction calls generalizing ctx with
  | nil => simp [ensureSeq] at hk
  | cons needed rest ih =>
    rw [ensureSeq_cons] at hk
    rcases List.mem_append.mp hk with hk | hk
    · exact ensure_invoked_uncached collectors env ctx needed k hk
    · have hrec := ih (ensure_facts collectors env ctx needed).ctx hk
      cases hc : dictGet ctx.facts k with
      | none => rfl
      | some v =>
        rw [ensure_mono collectors env ctx needed k v hc] at hrec
        exact Option.noConfusion hrec

theorem ensureSeq_invoked_nodup (collectors : String → Option Provider)
    (env : AwsEnv) (ctx : RowContext) (calls : List (List String))
    (h : ∀ e ∈ (ensureSeq collectors env ctx calls).2.2, e = none) :
    (ensureSeq collectors env ctx calls).2.1.Nodup := by
  induction calls generalizing ctx with
  | nil => simp [ensureSeq]
  | cons needed rest ih =>
    rw [ensureSeq_cons] at h ⊢
    have hhead : (ensure_facts collectors env ctx needed).err = none :=
      h _ (List.mem_cons_self _ _)
    have htail : ∀ e ∈ (ensureSeq collectors env
        (ensure_facts collectors env ctx needed).ctx rest).2.2, e = none :=
      fun e he => h e (List.mem_cons_of_mem _ he)
    rw [List.nodup_append]
    refine ⟨ensure_invoked_nodup collectors env ctx needed,
      ih (ensure_facts collectors env ctx needed).ctx htail, ?_⟩
    intro k hk1 hk2
    obtain ⟨v, hv⟩ :=
      ensure_ok_invoked_cached collectors env ctx needed hhead k hk1
    have := ensureSeq_invoked_uncached collectors env
      (ensure_facts collectors env ctx needed).ctx rest k hk2
    rw [hv] at this
    exact Option.noConfusion this

/-! ### Lemmas about the registry and the planner -/

theorem foldl_union_mem (cols : List ColumnDef) (acc : Finset String)
    (k : String) :
    (k ∈ cols.foldl (fun req c => req ∪ c.requires) acc) ↔
      k ∈ acc ∨ ∃ c, c ∈ cols ∧ k ∈ c.requires := by
  induction cols generalizing acc with
  | nil => simp
  | cons c cs ih =>
    rw [List.foldl_cons, ih (acc ∪ c.requires)]
    constructor
    · rintro (h | ⟨c', hc', hk⟩)
      · rcases Finset.mem_union.mp h with h | h
        · exact Or.inl h
        · exact Or.inr ⟨c, List.mem_cons_self c cs, h⟩
      · exact Or.inr ⟨c', List.mem_cons_of_mem c hc', hk⟩
    · rintro (h | ⟨c', hc', hk⟩)
      · exact Or.inl (Finset.mem_union_left _ h)
      · rcases List.mem_cons.mp hc' with h | h
        · subst h
          exact Or.inl (Finset.mem_union_right _ hk)
        · exact Or.inr ⟨c', h, hk⟩

theorem required_facts_mem (cols : List ColumnDef) (k : String) :
    k ∈ required_facts cols ↔ ∃ c, c ∈ cols ∧ k ∈ c.requires := by
  unfold required_facts
  rw [foldl_union_mem cols ∅ k]
  simp

theorem enabled_columns_mem (cols : List ColumnDef) (c : ColumnDef) :
    c ∈ enabled_columns cols ↔ c ∈ cols ∧ c.enabled := by
  simp [enabled_columns, List.mem_filter]

theorem buildRow_fst (cols : List ColumnDef) (ctx : RowContext) :
    (buildRow cols ctx).map Prod.fst = enabled_fieldnames cols := by
  simp [buildRow, enabled_fieldnames]

/-! ### Step equations and lemmas for the bucket loop -/

theorem processBuckets_nil (cols : List ColumnDef)
    (collectors : String → Option Provider) (order : List String)
    (env : AwsEnv) :
    processBuckets cols collectors order env [] = ([], [], none) :=
  rfl

theorem processBuckets_cons_noregion (cols : List ColumnDef)
    (collectors : String → Option Provider) (order : List String)
    (env : AwsEnv) (b : String) (rest : List String)
    (hr : get_bucket_region env b = none) :
    processBuckets cols collectors order env (b :: rest) =
      processBuckets cols collectors order env rest := by
  simp only [processBuckets, hr]

theorem processBuckets_cons_emptyregion (cols : List ColumnDef)
    (collectors : String → Option Provider) (order : List String)
    (env : AwsEnv) (b : String) (rest : List String)
    (hr : get_bucket_region env b = some "") :
    processBuckets cols collectors order env (b :: rest) =
      processBuckets cols collectors order env rest := by
  simp only [processBuckets, hr, if_pos]

theorem processBuckets_cons_fail (cols : List ColumnDef)
    (collectors : String → Option Provider) (order : List String)
    (env : AwsEnv) (b : String) (rest : List String) (reg : String)
    (e : EnsureError) (hr : get_bucket_region env b = some reg)
    (hne : ¬(reg = ""))
    (he : (ensure_facts collectors env ⟨⟨b, reg⟩, []⟩ order).err = some e) :
    processBuckets cols collectors order env (b :: rest) =
      ([], (ensure_facts collectors env ⟨⟨b, reg⟩, []⟩ order).invoked, some e) := by
  simp only [processBuckets, hr, if_neg hne, he]

theorem processBuckets_cons_ok (cols : List ColumnDef)
    (collectors : String → Option Provider) (order : List String)
    (env : AwsEnv) (b : String) (rest : List String) (reg : String)
    (hr : get_bucket_region env b = some reg) (hne : ¬(reg = ""))
    (he : (ensure_facts collectors env ⟨⟨b, reg⟩, []⟩ order).err = none) :
    processBuckets cols collectors order env (b :: rest) =
      (buildRow cols (ensure_facts collectors env ⟨⟨b, reg⟩, []⟩ order).ctx ::
         (processBuckets cols collectors order env rest).1,
       (ensure_facts collectors env ⟨⟨b, reg⟩, []⟩ order).invoked ++
         (processBuckets cols collectors order env rest).2.1,
       (processBuckets cols collectors order env rest).2.2) := by
  simp only [processBuckets, hr, if_neg hne, he]

theorem processBuckets_invoked_subset (cols : List ColumnDef)
    (collectors : String → Option Provider) (order : List String)
    (env : AwsEnv) (bs : List String) (k : String)
    (hk : k ∈ (processBuckets cols collectors order env bs).2.1) :
    k ∈ order := by
  induction bs with
  | nil => simp [processBuckets_nil] at hk
  | cons b rest ih =>
    cases hr : get_bucket_region env b with
    | none =>
      rw [processBuckets_cons_noregion cols collectors order env b rest hr] at hk
      exact ih hk
    | some reg =>
      by_cases hreg : reg = ""
      · subst hreg
        rw [processBuckets_cons_emptyregion cols collectors order env b rest hr] at hk
        exact ih hk
      · cases he : (ensure_facts collectors env ⟨⟨b, reg⟩, []⟩ order).err with
        | some e =>
          rw [processBuckets_cons_fail cols collectors order env b rest reg e hr hreg he] at hk
          exact ensure_invoked_subset collectors env ⟨⟨b, reg⟩, []⟩ order k hk
        | none =>
          rw [processBuckets_cons_ok cols collectors order env b rest reg hr hreg he] at hk
          rcases List.mem_append.mp hk with hk | hk
          · exact ensure_invoked_subset collectors env ⟨⟨b, reg⟩, []⟩ order k hk
          · exact ih hk

theorem processBuckets_rows_shape (cols : List ColumnDef)
    (collectors : String → Option Provider) (order : List String)
    (env : AwsEnv) (bs : List String)
    (row : List (String × OutputValue))
    (hrow : row ∈ (processBuckets cols collectors order env bs).1) :
    row.map Prod.fst = enabled_fieldnames cols := by
  induction bs with
  | nil => simp [processBuckets_nil] at hrow
  | cons b rest ih =>
    cases hr : get_bucket_region env b with
    | none =>
      rw [processBuckets_cons_noregion cols collectors order env b rest hr] at hrow
      exact ih hrow
    | some reg =>
      by_cases hreg : reg = ""
      · subst hreg
        rw [processBuckets_cons_emptyregion cols collectors order env b rest hr] at hrow
        exact ih hrow
      · cases he : (ensure_facts collectors env ⟨⟨b, reg⟩, []⟩ order).err with
        | some e =>
          rw [processBuckets_cons_fail cols collectors order env b rest reg e hr hreg he] at hrow
          simp at hrow
        | none =>
          rw [processBuckets_cons_ok cols collectors order env b rest reg hr hreg he] at hrow
          rcases List.mem_cons.mp hrow with hrow | hrow
          · subst hrow
            exact buildRow_fst cols _
          · exact ih hrow

theorem processBuckets_rows_length (cols : List ColumnDef)
    (collectors : String → Option Provider) (order : List String)
    (env : AwsEnv) (bs : List String) :
    (processBuckets cols collectors order env bs).1.length ≤ bs.length := by
  induction bs with
  | nil => simp [processBuckets_nil]
  | cons b rest ih =>
    cases hr : get_bucket_region env b with
    | none =>
      rw [processBuckets_cons_noregion cols collectors order env b rest hr]
      exact Nat.le_succ_of_le ih
    | some reg =>
      by_cases hreg : reg = ""
      · subst hreg
        rw [processBuckets_cons_emptyregion cols collectors order env b rest hr]
        exact Nat.le_succ_of_le ih
      · cases he : (ensure_facts collectors env ⟨⟨b, reg⟩, []⟩ order).err with
        | some e =>
          rw [processBuckets_cons_fail cols collectors order env b rest reg e hr hreg he]
          simp
        | none =>
          rw [processBuckets_cons_ok cols collectors order env b rest reg hr hreg he]
          simpa using ih

/-- Skipping lemma for `fact_sizes_by_type`: storage types whose metric
call fails contribute nothing. -/
theorem metrics_foldl_skip (env : AwsEnv) (bn : String) (l : List String)
    (acc : List (String × Rat))
    (h : ∀ st ∈ l, ∃ e, env.metrics bn st = .error e) :
    l.foldl
      (fun sizes stype =>
        match env.metrics bn stype with
        | .error _ => sizes
        | .ok dps =>
          match maxByTimestamp dps with
          | none => sizes
          | some latest => dictInsert sizes stype latest.average)
      acc = acc := by
  induction l generalizing acc with
  | nil => rfl
  | cons st rest ih =>
    obtain ⟨e, he⟩ := h st (List.mem_cons_self st rest)
    rw [List.foldl_cons, he]
    exact ih acc (fun st' h' => h st' (List.mem_cons_of_mem st h'))

/-! ### Claims -/

/-- C2: for every column registry, `required_facts (enabled_columns ...)`
is exactly the union of the `requires` sets of the enabled columns — a key
required only by disabled columns is not in it — and during a run (whose
`ensure_facts` iteration order enumerates that set) such a key's provider
is never invoked. -/
theorem required_facts_elision (columns : List ColumnDef)
    (collectors : String → Option Provider) (order : List String)
    (env : AwsEnv) (k : String)
    (hk : k ∉ required_facts (enabled_columns columns)) :
    (∀ q, q ∈ required_facts (enabled_columns columns) ↔
        ∃ c, c ∈ columns ∧ c.enabled ∧ q ∈ c.requires) ∧
    (order.toFinset = required_facts (enabled_columns columns) →
       k ∉ (runReport columns collectors order env).invoked) := by
  constructor
  · intro q
    rw [required_facts_mem]
    constructor
    · rintro ⟨c, hc, hq⟩
      obtain ⟨hc', he⟩ := (enabled_columns_mem columns c).mp hc
      exact ⟨c, hc', he, hq⟩
    · rintro ⟨c, hc, he, hq⟩
      exact ⟨c, (enabled_columns_mem columns c).mpr ⟨hc, he⟩, hq⟩
  · intro horder hmem
    unfold runReport at hmem
    cases hb : env.listBuckets with
    | error e =>
      rw [hb] at hmem
      simp at hmem
    | ok bs =>
      rw [hb] at hmem
      have hord : k ∈ order :=
        processBuckets_invoked_subset _ _ _ _ bs k hmem
      have hfin : k ∈ order.toFinset := List.mem_toFinset.mpr hord
      rw [horder] at hfin
      exact hk hfin

theorem required_facts_elision_witness :
    ("account_id" ∈ required_facts (enabled_columns COLUMNS) ↔
       ∃ c, c ∈ COLUMNS ∧ c.enabled ∧ "account_id" ∈ c.requires) ∧
    "account_id" ∉
      (runReport COLUMNS FACT_COLLECTORS ["sizes_by_type", "tags"] okEnv).invoked :=
  ⟨(required_facts_elision COLUMNS FACT_COLLECTORS ["sizes_by_type", "tags"]
      okEnv "account_id" (by decide)).1 "account_id",
   (required_facts_elision COLUMNS FACT_COLLECTORS ["sizes_by_type", "tags"]
      okEnv "account_id" (by decide)).2 (by decide)⟩

/-- C5: `enabled_columns` keeps exactly the columns whose flag is true, in
registration order (a sublist); the built row's key sequence and the
report header are exactly that sequence of names; on the source's
`COLUMNS` the sequence is the concrete registration-ordered list (the
function is pure, so the result is the same on every call). -/
theorem enabled_columns_order_stable (cols : List ColumnDef) :
    (enabled_columns cols).Sublist cols ∧
    (∀ c, c ∈ enabled_columns cols → c.enabled) ∧
    (∀ c, c ∈ cols → c.enabled → c ∈ enabled_columns cols) ∧
    (∀ ctx, (buildRow (enabled_columns cols) ctx).map Prod.fst =
       enabled_fieldnames (enabled_columns cols)) ∧
    (∀ collectors order env bs, env.listBuckets = .ok bs →
       (runReport cols collectors order env).header =
         some (enabled_fieldnames (enabled_columns cols))) ∧
    enabled_fieldnames (enabled_columns COLUMNS) =
      ["bucket_name", "region", "total_bytes", "tags",
       "tag_cost_center", "tag_environment"] := by
  refine ⟨List.filter_sublist cols, ?_, ?_, ?_, ?_, by decide⟩
  · intro c hc
    exact ((enabled_columns_mem cols c).mp hc).2
  · intro c hc he
    exact (enabled_columns_mem cols c).mpr ⟨hc, he⟩
  · intro ctx
    exact buildRow_fst (enabled_columns cols) ctx
  · intro collectors order env bs hb
    unfold runReport
    rw [hb]

theorem enabled_columns_order_stable_witness :
    (⟨"tags", true, col_tags_kv, {"tags"}⟩ : ColumnDef) ∈
      enabled_columns COLUMNS ∧
    (runReport COLUMNS FACT_COLLECTORS ["sizes_by_type", "tags"] okEnv).header =
      some (enabled_fieldnames (enabled_columns COLUMNS)) :=
  ⟨(enabled_columns_order_stable COLUMNS).2.2.1 _
      (by unfold COLUMNS
          exact List.mem_cons_of_mem _ (List.mem_cons_of_mem _
            (List.mem_cons_of_mem _ (List.mem_cons_of_mem _
              (List.mem_cons_self _ _))))) rfl,
   (enabled_columns_order_stable COLUMNS).2.2.2.2.1 FACT_COLLECTORS
      ["sizes_by_type", "tags"] okEnv ["b1"] rfl⟩

/-- C7: the renderers are total functions of the context; whenever a
required fact key is absent from the cache they return their neutral
output — the empty string for `account_id`, `tags` and the tag-derived
columns, `0` for `total_bytes` — instead of failing. -/
theorem renderers_default_on_absence (ctx : RowContext) :
    (dictGet ctx.facts "account_id" = none → col_account_id ctx = .str "") ∧
    (dictGet ctx.facts "sizes_by_type" = none → col_total_bytes ctx = .int 0) ∧
    (dictGet ctx.facts "tags" = none →
       col_tags_kv ctx = .str "" ∧ col_tag_cost_center ctx = .str "" ∧
         col_tag_environment ctx = .str "") := by
  refine ⟨?_, ?_, ?_⟩
  · intro h
    unfold col_account_id
    rw [h]
    rfl
  · intro h
    unfold col_total_bytes
    rw [h]
    decide
  · intro h
    refine ⟨?_, ?_, ?_⟩
    · unfold col_tags_kv
      rw [h]
      rfl
    · unfold col_tag_cost_center tag_value
      rw [h]
      rfl
    · unfold col_tag_environment tag_value
      rw [h]
      rfl

theorem renderers_default_on_absence_witness :
    col_account_id ctxB1 = .str "" ∧
    col_total_bytes ctxB1 = .int 0 ∧
    col_tags_kv ctxB1 = .str "" ∧
    col_tag_cost_center ctxB1 = .str "" ∧
    col_tag_environment ctxB1 = .str "" :=
  ⟨(renderers_default_on_absence ctxB1).1 rfl,
   (renderers_default_on_absence ctxB1).2.1 rfl,
   ((renderers_default_on_absence ctxB1).2.2 rfl).1,
   ((renderers_default_on_absence ctxB1).2.2 rfl).2.1,
   ((renderers_default_on_absence ctxB1).2.2 rfl).2.2⟩

/-- C8: a report run never emits a partial row: every emitted row's key
sequence is exactly the enabled fieldnames (one value per enabled column),
and at most one row is emitted per discovered bucket (a skipped bucket
contributes none). -/
theorem rows_always_complete (columns : List ColumnDef)
    (collectors : String → Option Provider) (order : List String)
    (env : AwsEnv) :
    (∀ row, row ∈ (runReport columns collectors order env).rows →
       row.map Prod.fst = enabled_fieldnames (enabled_columns columns)) ∧
    (∀ bs, env.listBuckets = .ok bs →
       (runReport columns collectors order env).rows.length ≤ bs.length) := by
  constructor
  · intro row hrow
    unfold runReport at hrow
    cases hb : env.listBuckets with
    | error e =>
      rw [hb] at hrow
      simp at hrow
    | ok bs =>
      rw [hb] at hrow
      exact processBuckets_rows_shape _ _ _ _ bs row hrow
  · intro bs hb
    unfold runReport
    rw [hb]
    exact processBuckets_rows_length _ _ _ _ bs

theorem rows_always_complete_witness :
    ((runReport COLUMNS FACT_COLLECTORS ["sizes_by_type", "tags"] okEnv).rows.headD []).map
        Prod.fst = enabled_fieldnames (enabled_columns COLUMNS) ∧
    (runReport COLUMNS FACT_COLLECTORS ["sizes_by_type", "tags"] okEnv).rows.length ≤
      ["b1"].length :=
  ⟨(rows_always_complete COLUMNS FACT_COLLECTORS ["sizes_by_type", "tags"] okEnv).1
      _ (by decide),
   (rows_always_complete COLUMNS FACT_COLLECTORS ["sizes_by_type", "tags"] okEnv).2
      ["b1"] rfl⟩

/-- C9: the spec's example scenario on the source's machinery: with
columns `name`/`total` enabled and `owner_col` disabled, the required fact
set is exactly `{"size"}`, the `owner` provider is never invoked, and the
row for the resource `bucket-1` whose `size` fact is `{"A": 10, "B": 5}`
is `{"name": "bucket-1", "total": 15}` (the truncated sum). -/
theorem example_scenario_name_total :
    required_facts (enabled_columns exampleColumns) = {"size"} ∧
    (ensure_facts exampleCollectors okEnv exampleCtx ["size"]).invoked = ["size"] ∧
    "owner" ∉ (ensure_facts exampleCollectors okEnv exampleCtx ["size"]).invoked ∧
    buildRow (enabled_columns exampleColumns)
        (ensure_facts exampleCollectors okEnv exampleCtx ["size"]).ctx =
      [("name", .str "bucket-1"), ("total", .int 15)] := by
  refine ⟨by decide, by decide, by decide, ?_⟩
  have hctx : (ensure_facts exampleCollectors okEnv exampleCtx ["size"]).ctx =
      ⟨⟨"bucket-1", "us-east-1"⟩, [("size", .numMap [("A", 10), ("B", 5)])]⟩ := by
    decide
  rw [hctx]
  have hsum : truncRat (ratSum [("A", (10 : Rat)), ("B", 5)]) = 15 := by
    norm_num [ratSum, truncRat]
  simp only [buildRow, enabled_columns, exampleColumns, List.filter, List.map]
  simp [dictGet, numMapOf, hsum]

/-- C10: `get_bucket_region` normalizes a missing `LocationConstraint` to
`us-east-1`, passes a present constraint through unchanged, yields `None`
on a `ClientError` — and a bucket whose region is `None` is skipped by the
bucket loop with no row emitted. -/
theorem bucket_region_normalization (env : AwsEnv) (b : String) :
    (env.location b = .ok none → get_bucket_region env b = some "us-east-1") ∧
    (∀ s, env.location b = .ok (some s) → get_bucket_region env b = some s) ∧
    (∀ e, env.location b = .error e → get_bucket_region env b = none) ∧
    (∀ cols collectors order, get_bucket_region env b = none →
       processBuckets cols collectors order env [b] = ([], [], none)) := by
  refine ⟨?_, ?_, ?_, ?_⟩
  · intro h
    unfold get_bucket_region
    rw [h]
    rfl
  · intro s h
    unfold get_bucket_region
    rw [h]
    rfl
  · intro e h
    unfold get_bucket_region
    rw [h]
  · intro cols collectors order h
    rw [processBuckets_cons_noregion cols collectors order env b [] h]
    rfl

theorem bucket_region_normalization_witness :
    get_bucket_region noBucketEnv "b1" = some "us-east-1" ∧
    get_bucket_region okEnv "b1" = some "eu-west-1" ∧
    get_bucket_region locErrEnv "b1" = none ∧
    processBuckets (enabled_columns COLUMNS) FACT_COLLECTORS
      ["sizes_by_type", "tags"] locErrEnv ["b1"] = ([], [], none) :=
  ⟨(bucket_region_normalization noBucketEnv "b1").1 rfl,
   (bucket_region_normalization okEnv "b1").2.1 "eu-west-1" rfl,
   (bucket_region_normalization locErrEnv "b1").2.2.1 ⟨"AccessDenied"⟩ rfl,
   (bucket_region_normalization locErrEnv "b1").2.2.2 _ _ _
     ((bucket_region_normalization locErrEnv "b1").2.2.1 ⟨"AccessDenied"⟩ rfl)⟩

/-- C1 (counterexample): a provider is NOT always invoked at most once
across a sequence of `ensure_facts` calls: when the STS call fails,
`fact_account_id` raises, nothing is cached for `account_id`, and a second
`ensure_facts` call naming the key invokes the collector again. -/
theorem ensure_memoized_once_cex :
    (ensureSeq FACT_COLLECTORS stsDownEnv ctxB1
        [["account_id"], ["account_id"]]).2.1 = ["account_id", "account_id"] ∧
    ¬ (ensureSeq FACT_COLLECTORS stsDownEnv ctxB1
        [["account_id"], ["account_id"]]).2.1.Nodup := by
  refine ⟨by decide, by decide⟩

/-- C1 (amended): a fact present in the cache is never recomputed or
overwritten by any sequence of `ensure_facts` calls; each key's provider
is invoked at most once across any sequence of calls that all complete
without raising (once an invocation succeeds the key is cached and
skipped).  Only a provider that raises leaves its key uncached and can be
invoked again by a later call. -/
theorem ensure_memoized_once (collectors : String → Option Provider)
    (env : AwsEnv) (ctx : RowContext) (calls : List (List String)) :
    (∀ k v, dictGet ctx.facts k = some v →
       dictGet (ensureSeq collectors env ctx calls).1.facts k = some v) ∧
    ((∀ e ∈ (ensureSeq collectors env ctx calls).2.2, e = none) →
       (ensureSeq collectors env ctx calls).2.1.Nodup) :=
  ⟨fun k v h => ensureSeq_mono collectors env ctx calls k v h,
   fun h => ensureSeq_invoked_nodup collectors env ctx calls h⟩

theorem ensure_memoized_once_witness :
    dictGet (ensureSeq FACT_COLLECTORS okEnv
        ⟨⟨"b1", "eu-west-1"⟩, [("account_id", .str "111")]⟩
        [["tags"], ["tags", "sizes_by_type"]]).1.facts "account_id" =
      some (.str "111") ∧
    (ensureSeq FACT_COLLECTORS okEnv
        ⟨⟨"b1", "eu-west-1"⟩, [("account_id", .str "111")]⟩
        [["tags"], ["tags", "sizes_by_type"]]).2.1.Nodup :=
  ⟨(ensure_memoized_once FACT_COLLECTORS okEnv
      ⟨⟨"b1", "eu-west-1"⟩, [("account_id", .str "111")]⟩
      [["tags"], ["tags", "sizes_by_type"]]).1 "account_id" (.str "111")
      (by decide),
   (ensure_memoized_once FACT_COLLECTORS okEnv
      ⟨⟨"b1", "eu-west-1"⟩, [("account_id", .str "111")]⟩
      [["tags"], ["tags", "sizes_by_type"]]).2 (by decide)⟩

/-- C3 (counterexample): a failing provider is NOT caught inside
`ensure_facts`: with the STS call down, requesting `account_id` then
`tags` raises out of `ensure_facts` (the error is returned, not absorbed),
nothing is recorded for the failing key, and the `tags` collector — later
in the iteration — is never invoked and its fact never cached. -/
theorem provider_failure_isolation_cex :
    (ensure_facts FACT_COLLECTORS stsDownEnv ctxB1 ["account_id", "tags"]).err =
      some (.providerError "account_id" ⟨"AccessDenied"⟩) ∧
    "tags" ∉
      (ensure_facts FACT_COLLECTORS stsDownEnv ctxB1 ["account_id", "tags"]).invoked ∧
    dictGet (ensure_facts FACT_COLLECTORS stsDownEnv ctxB1
        ["account_id", "tags"]).ctx.facts "tags" = none := by
  refine ⟨by decide, by decide, by decide⟩

/-- C3 (amended): failure handling lives in the individual collectors,
not in `ensure_facts`.  A collector that raises (`fact_account_id` when
STS fails) propagates out of `ensure_facts`, aborting the loop: the
failing key is left uncached and later keys are not processed.  The
collectors that do handle failure (`fact_tags`, and `fact_sizes_by_type`
per storage type) catch their client errors internally and record a
present empty mapping — not an absent fact. -/
theorem provider_failure_isolation :
    (∀ env ctx e rest, env.stsAccount = .error e →
       dictGet ctx.facts "account_id" = none →
       ensure_facts FACT_COLLECTORS env ctx ("account_id" :: rest) =
         ⟨ctx, ["account_id"], some (.providerError "account_id" e)⟩) ∧
    (∀ env ctx e, env.tagging ctx.base.bucket_name = .error e →
       fact_tags env ctx = .ok (.strMap [])) ∧
    (∀ env ctx, (∀ st, ∃ e, env.metrics ctx.base.bucket_name st = .error e) →
       fact_sizes_by_type env ctx = .ok (.numMap [])) := by
  refine ⟨?_, ?_, ?_⟩
  · intro env ctx e rest hsts hu
    have hv : fact_account_id env ctx = .error e := by
      unfold fact_account_id
      rw [hsts]
    exact ensure_cons_fail FACT_COLLECTORS env ctx "account_id" rest
      fact_account_id e hu rfl hv
  · intro env ctx e h
    unfold fact_tags
    rw [h]
    by_cases hc : e.code = "NoSuchTagSet" <;> simp [hc]
  · intro env ctx h
    unfold fact_sizes_by_type
    rw [metrics_foldl_skip env ctx.base.bucket_name STORAGE_TYPES []
      (fun st _ => h st)]

theorem provider_failure_isolation_witness :
    ensure_facts FACT_COLLECTORS allDownEnv ctxB1 ["account_id"] =
      ⟨ctxB1, ["account_id"], some (.providerError "account_id" ⟨"AccessDenied"⟩)⟩ ∧
    fact_tags allDownEnv ctxB1 = .ok (.strMap []) ∧
    fact_sizes_by_type allDownEnv ctxB1 = .ok (.numMap []) :=
  ⟨provider_failure_isolation.1 allDownEnv ctxB1 ⟨"AccessDenied"⟩ [] rfl rfl,
   provider_failure_isolation.2.1 allDownEnv ctxB1 ⟨"AccessDenied"⟩ rfl,
   provider_failure_isolation.2.2 allDownEnv ctxB1
     (fun _ => ⟨⟨"Throttling"⟩, rfl⟩)⟩

/-- C4 (counterexample): with a failing provider, `ensure_facts` is not
idempotent as claimed: calling with `["account_id"]` twice invokes the
`account_id` collector twice, and the two successive calls
`["account_id", "tags"]` then `["tags"]` leave `tags` cached whereas the
single call on the union (iterated as `["account_id", "tags"]`) aborts
before reaching `tags` and leaves it absent. -/
theorem ensure_union_idempotent_cex :
    ((ensure_facts FACT_COLLECTORS stsDownEnv ctxB1 ["account_id"]).invoked ++
       (ensure_facts FACT_COLLECTORS stsDownEnv
         (ensure_facts FACT_COLLECTORS stsDownEnv ctxB1 ["account_id"]).ctx
         ["account_id"]).invoked) = ["account_id", "account_id"] ∧
    dictGet (ensure_facts FACT_COLLECTORS stsDownEnv
        (ensure_facts FACT_COLLECTORS stsDownEnv ctxB1
          ["account_id", "tags"]).ctx ["tags"]).ctx.facts "tags" =
      some (.strMap []) ∧
    dictGet (ensure_facts FACT_COLLECTORS stsDownEnv ctxB1
        ["account_id", "tags"]).ctx.facts "tags" = none := by
  refine ⟨by decide, by decide, by decide⟩

/-- C4 (amended): as long as both calls complete without raising, two
successive `ensure_facts` calls with key sets `K1` and `K2` leave the
cache with the same contents (the same key-to-value mapping) as one call
over any iteration order of the union, that single call also completes
without raising, and no collector is invoked more than once across the
two calls. -/
theorem ensure_union_idempotent (collectors : String → Option Provider)
    (env : AwsEnv) (ctx : RowContext) (K1 K2 L : List String)
    (hCI : CtxIndep collectors)
    (hL : L.toFinset = K1.toFinset ∪ K2.toFinset)
    (h1 : (ensure_facts collectors env ctx K1).err = none)
    (h2 : (ensure_facts collectors env
        (ensure_facts collectors env ctx K1).ctx K2).err = none) :
    (ensure_facts collectors env ctx L).err = none ∧
    (∀ k, dictGet (ensure_facts collectors env
        (ensure_facts collectors env ctx K1).ctx K2).ctx.facts k =
      dictGet (ensure_facts collectors env ctx L).ctx.facts k) ∧
    ((ensure_facts collectors env ctx K1).invoked ++
       (ensure_facts collectors env
         (ensure_facts collectors env ctx K1).ctx K2).invoked).Nodup := by
  have hmem : ∀ k, k ∈ L ↔ k ∈ K1 ++ K2 := by
    intro k
    have := Finset.ext_iff.mp hL k
    simpa [List.mem_toFinset, List.mem_append, Finset.mem_union] using this
  have happ := ensure_append collectors env ctx K1 K2 h1
  have happErr : (ensure_facts collectors env ctx (K1 ++ K2)).err = none := by
    rw [happ]
    exact h2
  have happCtx : (ensure_facts collectors env ctx (K1 ++ K2)).ctx =
      (ensure_facts collectors env
        (ensure_facts collectors env ctx K1).ctx K2).ctx := by
    rw [happ]
  have hLerr : (ensure_facts collectors env ctx L).err = none := by
    rw [ensure_ok_iff collectors env ctx L hCI]
    intro k hk
    exact (ensure_ok_iff collectors env ctx (K1 ++ K2) hCI).mp happErr k
      ((hmem k).mp hk)
  refine ⟨hLerr, ?_, ?_⟩
  · intro k
    rw [← happCtx]
    cases hc : dictGet ctx.facts k with
    | some v =>
      rw [ensure_mono collectors env ctx (K1 ++ K2) k v hc,
        ensure_mono collectors env ctx L k v hc]
    | none =>
      rw [ensure_ok_char collectors env ctx (K1 ++ K2) hCI happErr k hc,
        ensure_ok_char collectors env ctx L hCI hLerr k hc]
      by_cases hin : k ∈ L
      · rw [if_pos hin, if_pos ((hmem k).mp hin)]
      · rw [if_neg hin, if_neg (fun hh => hin ((hmem k).mpr hh))]
  · rw [List.nodup_append]
    refine ⟨ensure_invoked_nodup collectors env ctx K1,
      ensure_invoked_nodup collectors env _ K2, ?_⟩
    intro k hk1 hk2
    obtain ⟨v, hv⟩ := ensure_ok_invoked_cached collectors env ctx K1 h1 k hk1
    have := ensure_invoked_uncached collectors env
      (ensure_facts collectors env ctx K1).ctx K2 k hk2
    rw [hv] at this
    exact Option.noConfusion this

theorem ensure_union_idempotent_witness :
    (ensure_facts FACT_COLLECTORS okEnv ctxB1 ["tags", "sizes_by_type"]).err =
      none ∧
    dictGet (ensure_facts FACT_COLLECTORS okEnv
        (ensure_facts FACT_COLLECTORS okEnv ctxB1 ["tags"]).ctx
        ["tags", "sizes_by_type"]).ctx.facts "tags" =
      dictGet (ensure_facts FACT_COLLECTORS okEnv ctxB1
        ["tags", "sizes_by_type"]).ctx.facts "tags" ∧
    ((ensure_facts FACT_COLLECTORS okEnv ctxB1 ["tags"]).invoked ++
       (ensure_facts FACT_COLLECTORS okEnv
         (ensure_facts FACT_COLLECTORS okEnv ctxB1 ["tags"]).ctx
         ["tags", "sizes_by_type"]).invoked).Nodup :=
  have h := ensure_union_idempotent FACT_COLLECTORS okEnv ctxB1 ["tags"]
    ["tags", "sizes_by_type"] ["tags", "sizes_by_type"]
    fact_collectors_ctxIndep (by decide) (by decide) (by decide)
  ⟨h.1, h.2.1 "tags", h.2.2⟩

/-- C6 (counterexample): an unregistered fact key is NOT fatal at
startup.  With a registry whose enabled column requires the unregistered
key `bogus`: on an account with no buckets the run completes with no
error at all, and on an account with one bucket the header is written and
the bucket listed before the `KeyError` surfaces from `ensure_facts`
while that resource is being processed. -/
theorem registration_error_handling_cex :
    "bogus" ∈ required_facts (enabled_columns bogusColumns) ∧
    (runReport bogusColumns FACT_COLLECTORS ["bogus"] noBucketEnv).err = none ∧
    (runReport bogusColumns FACT_COLLECTORS ["bogus"] okEnv).header =
      some ["x"] ∧
    (runReport bogusColumns FACT_COLLECTORS ["bogus"] okEnv).err =
      some (.unknownKey "bogus") := by
  refine ⟨by decide, by decide, by decide, by decide⟩

/-- C6 (amended): `FACT_COLLECTORS` is a literal mapping with no
registration operation, so no `DuplicateFactKey` error exists.  A
requested fact key with no registered collector makes `ensure_facts`
raise `KeyError` at the moment the key is demanded during resource
processing, with nothing invoked; when no resource is processed the
lookup never happens and the run completes without error. -/
theorem registration_error_handling :
    (∀ (collectors : String → Option Provider) env ctx k rest,
       collectors k = none → dictGet ctx.facts k = none →
       ensure_facts collectors env ctx (k :: rest) =
         ⟨ctx, [], some (.unknownKey k)⟩) ∧
    (∀ columns (collectors : String → Option Provider) order env,
       env.listBuckets = .ok [] →
       (runReport columns collectors order env).err = none ∧
       (runReport columns collectors order env).rows = []) := by
  constructor
  · intro collectors env ctx k rest hcol hc
    exact ensure_cons_unknown collectors env ctx k rest hc hcol
  · intro columns collectors order env hb
    unfold runReport
    rw [hb]
    exact ⟨rfl, rfl⟩

theorem registration_error_handling_witness :
    ensure_facts FACT_COLLECTORS okEnv ctxB1 ["bogus"] =
      ⟨ctxB1, [], some (.unknownKey "bogus")⟩ ∧
    (runReport bogusColumns FACT_COLLECTORS ["bogus"] noBucketEnv).err = none ∧
    (runReport bogusColumns FACT_COLLECTORS ["bogus"] noBucketEnv).rows = [] :=
  ⟨registration_error_handling.1 FACT_COLLECTORS okEnv ctxB1 "bogus" [] rfl rfl,
   (registration_error_handling.2 bogusColumns FACT_COLLECTORS ["bogus"]
     noBucketEnv rfl).1,
   (registration_error_handling.2 bogusColumns FACT_COLLECTORS ["bogus"]
     noBucketEnv rfl).2⟩

end S3Inv
